import Mathlib

/-!
Verification development for the file-sense adaptive indexing and retrieval
engine.  Python source files are shallowly embedded as Lean functions over
`List Char` (Python `str`), `Nat`/`Int` (Python `int`) and `ℚ` (Python
floats, modelled exactly where only signs, sums and comparisons matter).
-/

namespace FileSense

/-- Python whitespace test for ASCII text: the characters stripped by
`str.strip()` and matched by the regex class `\s`. -/
def pyIsSpace (c : Char) : Bool :=
  c = ' ' || c = '\t' || c = '\n' || c = '\r' || c = '\x0b' || c = '\x0c'

/-- Embedding of Python `str.strip()`: remove leading and trailing
whitespace. -/
def pyStrip (s : List Char) : List Char :=
  ((s.dropWhile pyIsSpace).reverse.dropWhile pyIsSpace).reverse

/-- Embedding of Python `str.find(sub)`: index of the first occurrence of
`sub`, `none` standing for Python's `-1`. -/
def pyFindAux (sub : List Char) : List Char → Option Nat
  | [] => if sub.isPrefixOf ([] : List Char) then some 0 else none
  | c :: t =>
    if sub.isPrefixOf (c :: t) then some 0
    else (pyFindAux sub t).map (· + 1)

/-- Word-boundary fallback of `ParagraphChunker._get_overlap_text`: Python
`word_start = overlap_text.find(' ') + 1; if word_start > 0: ...`. -/
def overlapAfterWord (ot : List Char) : List Char :=
  match pyFindAux [' '] ot with
  | some j => ot.drop (j + 1)
  | none => ot

/-- Embedding of `ParagraphChunker._get_overlap_text`.  Note the source
computes `sentence_start = overlap_text.find('. ') + 2` and uses it only when
`> 2`, i.e. when the match index is at least 1. -/
def getOverlapText (overlap : Nat) (text : List Char) : List Char :=
  if text = [] then []
  else if text.length ≤ overlap then text
  else
    let ot := text.drop (text.length - overlap)
    match pyFindAux ['.', ' '] ot with
    | some i => if 0 < i then ot.drop (i + 2) else overlapAfterWord ot
    | none => overlapAfterWord ot

/-- Grouping step for Python `str.split()` with no arguments. -/
def wordsStep (c : Char) (acc : List (List Char)) : List (List Char) :=
  if pyIsSpace c then [] :: acc
  else
    match acc with
    | [] => [[c]]
    | w :: ws => (c :: w) :: ws

/-- Embedding of Python `str.split()` with no arguments: the maximal
whitespace-free runs of the string, in order. -/
def pyWords (s : List Char) : List (List Char) :=
  (s.foldr wordsStep []).filter (fun w => !w.isEmpty)

/-- Accumulation loop of `ParagraphChunker._split_by_words` over the word
list. -/
def goWords (maxSize : Nat) : List (List Char) → List Char → List (List Char)
  | [], cur => if cur.isEmpty then [] else [pyStrip cur]
  | w :: ws, cur =>
    if cur.length + w.length + 1 ≤ maxSize then
      goWords maxSize ws (if cur.isEmpty then w else cur ++ [' '] ++ w)
    else
      (if cur.isEmpty then [] else [pyStrip cur]) ++ goWords maxSize ws w

/-- Embedding of `ParagraphChunker._split_by_words`. -/
def splitByWords (maxSize : Nat) (text : List Char) : List (List Char) :=
  goWords maxSize (pyWords text) []

/-- Sentence-ending characters of the lookbehind class `[.!?]`. -/
def isSentEnd (c : Char) : Bool := c = '.' || c = '!' || c = '?'

/-- Fuel-driven scanner embedding `re.split` of the pattern
`(?<=[.!?])\s+`: the string is cut at every maximal whitespace run whose
immediately preceding character ends a sentence; the run is consumed.  The
accumulator `cur` holds the current piece reversed.  The fuel always exceeds
the number of remaining characters at the call sites. -/
def splitSentencesAux : Nat → List Char → List Char → List (List Char)
  | 0, rest, cur => [cur.reverse ++ rest]
  | _ + 1, [], cur => [cur.reverse]
  | fuel + 1, c :: rest, cur =>
    if pyIsSpace c then
      match cur with
      | p :: _ =>
        if isSentEnd p then
          cur.reverse :: splitSentencesAux fuel (rest.dropWhile pyIsSpace) []
        else
          splitSentencesAux fuel rest (c :: cur)
      | [] => splitSentencesAux fuel rest (c :: cur)
    else
      splitSentencesAux fuel rest (c :: cur)

/-- Embedding of `re.split(r'(?<=[.!?])\s+', para)`. -/
def pySplitSentences (s : List Char) : List (List Char) :=
  splitSentencesAux (s.length + 1) s []

/-- Accumulation loop of `ParagraphChunker._split_large_paragraph` over the
sentence list. -/
def goSentences (maxSize : Nat) : List (List Char) → List Char → List (List Char)
  | [], cur => if cur.isEmpty then [] else [pyStrip cur]
  | s :: ss, cur =>
    let sent := pyStrip s
    if sent.isEmpty then goSentences maxSize ss cur
    else if maxSize < sent.length then
      (if cur.isEmpty then [] else [pyStrip cur]) ++ splitByWords maxSize sent
        ++ goSentences maxSize ss []
    else if cur.length + sent.length + 1 ≤ maxSize then
      goSentences maxSize ss (if cur.isEmpty then sent else cur ++ [' '] ++ sent)
    else
      (if cur.isEmpty then [] else [pyStrip cur]) ++ goSentences maxSize ss sent

/-- Embedding of `ParagraphChunker._split_large_paragraph`. -/
def splitLargeParagraph (maxSize : Nat) (para : List Char) : List (List Char) :=
  goSentences maxSize (pySplitSentences para) []

/-- Fuel-driven scanner embedding `re.split` of the paragraph delimiter
`\n\s*\n`: a match runs from the first to the last newline of a whitespace
run containing at least two newlines (the leftmost match of the greedy
pattern).  The accumulator `cur` holds the current piece reversed. -/
def splitBlankAux : Nat → List Char → List Char → List (List Char)
  | 0, rest, cur => [cur.reverse ++ rest]
  | _ + 1, [], cur => [cur.reverse]
  | fuel + 1, c :: rest, cur =>
    if c = '\n' then
      let ws := rest.takeWhile pyIsSpace
      if ws.contains '\n' then
        let tailLen := (ws.reverse.takeWhile (fun d => !(d = '\n'))).length
        let rest2 := ws.drop (ws.length - tailLen) ++ rest.drop ws.length
        cur.reverse :: splitBlankAux fuel rest2 []
      else
        splitBlankAux fuel rest (c :: cur)
    else
      splitBlankAux fuel rest (c :: cur)

/-- Embedding of `re.split(r'\n\s*\n', text)`. -/
def splitParagraphs (s : List Char) : List (List Char) :=
  splitBlankAux (s.length + 1) s []

/-- Configuration of the `ParagraphChunker` class (`min_chunk_size` is stored
but never read by the source, as here). -/
structure ParagraphChunker where
  max_chunk_size : Nat := 512
  overlap : Nat := 50
  min_chunk_size : Nat := 100
deriving DecidableEq, Repr

/-- Main accumulation loop of `ParagraphChunker.chunk_streaming` over the
paragraph list.  `cur` is the `current_chunk` buffer. -/
def goParagraphs (ck : ParagraphChunker) : List (List Char) → List Char → List (List Char)
  | [], cur => if cur.isEmpty then [] else [pyStrip cur]
  | p :: ps, cur =>
    let para := pyStrip p
    if para.isEmpty then goParagraphs ck ps cur
    else if ck.max_chunk_size < para.length then
      (if cur.isEmpty then [] else [pyStrip cur]) ++ splitLargeParagraph ck.max_chunk_size para
        ++ goParagraphs ck ps []
    else if cur.length + para.length + 2 ≤ ck.max_chunk_size then
      goParagraphs ck ps (if cur.isEmpty then para else cur ++ ['\n', '\n'] ++ para)
    else
      (if cur.isEmpty then [] else [pyStrip cur]) ++
        goParagraphs ck ps
          (if 0 < ck.overlap && !cur.isEmpty then
            (let ot := getOverlapText ck.overlap cur
             if ot.isEmpty then para else ot ++ ['\n', '\n'] ++ para)
          else para)

/-- Embedding of `ParagraphChunker.chunk_streaming` (the generator's emitted
sequence, as a list). -/
def chunkStreaming (ck : ParagraphChunker) (text : List Char) : List (List Char) :=
  if text.isEmpty || (pyStrip text).isEmpty then []
  else goParagraphs ck (splitParagraphs text) []

/-- Embedding of `create_chunker_for_mode`; unknown modes fall back to the
balanced settings. -/
def createChunkerForMode (mode : String) : ParagraphChunker :=
  if mode = "eco" then ⟨512, 50, 100⟩
  else if mode = "balanced" then ⟨1000, 100, 200⟩
  else if mode = "performance" then ⟨1000, 100, 200⟩
  else ⟨1000, 100, 200⟩

/-! ### Vector index (`lightweight_faiss.py`) -/

/-- State of `LightweightFAISSIndex`, generic over the stored vector type:
the resident vectors in slot order, the slot-to-document-id mapping
(`id_map`, unique keys), and `next_internal_id`. -/
structure FaissState (V : Type) where
  vectors : List V
  id_map : List (Nat × Nat)
  next_internal_id : Nat
deriving DecidableEq, Repr

/-- Lookup in the slot-to-id mapping (Python `dict.get`). -/
def idMapLookup (m : List (Nat × Nat)) (k : Nat) : Option Nat :=
  match m with
  | [] => none
  | (k2, v) :: rest => if k2 = k then some v else idMapLookup rest k

/-- Assignment `id_map[k] = v` (Python dict item assignment). -/
def idMapSet (m : List (Nat × Nat)) (k v : Nat) : List (Nat × Nat) :=
  m.filter (fun p => !(p.1 = k)) ++ [(k, v)]

/-- Embedding of `LightweightFAISSIndex.add`.  `none` models the raised
`ValueError` on a length mismatch; the dtype checks are enforced by the
vector type `V`. -/
def faissAdd {V : Type} (s : FaissState V) (embeddings : List V) (doc_ids : List Nat) :
    Option (Bool × FaissState V) :=
  if embeddings.length = 0 || doc_ids.length = 0 then some (false, s)
  else if embeddings.length ≠ doc_ids.length then none
  else
    let m2 := doc_ids.enum.foldl (fun m p => idMapSet m (s.next_internal_id + p.1) p.2) s.id_map
    some (true,
      { vectors := s.vectors ++ embeddings
        id_map := m2
        next_internal_id := s.next_internal_id + doc_ids.length })

/-- Candidate ordering of the FAISS flat backends: by distance, ties by
ascending slot index. -/
def lexLe (a b : Nat × ℚ) : Prop := a.2 < b.2 ∨ (a.2 = b.2 ∧ a.1 ≤ b.1)

instance lexLe.decRel : DecidableRel lexLe := fun a b => by
  unfold lexLe
  infer_instance

instance lexLe.total : IsTotal (Nat × ℚ) lexLe where
  total a b := by
    unfold lexLe
    rcases lt_trichotomy a.2 b.2 with h | h | h
    · exact Or.inl (Or.inl h)
    · rcases Nat.le_total a.1 b.1 with h2 | h2
      · exact Or.inl (Or.inr ⟨h, h2⟩)
      · exact Or.inr (Or.inr ⟨h.symm, h2⟩)
    · exact Or.inr (Or.inl h)

instance lexLe.trans : IsTrans (Nat × ℚ) lexLe where
  trans a b c hab hbc := by
    unfold lexLe at *
    rcases hab with h1 | ⟨e1, l1⟩
    · rcases hbc with h2 | ⟨e2, _⟩
      · exact Or.inl (h1.trans h2)
      · exact Or.inl (e2 ▸ h1)
    · rcases hbc with h2 | ⟨e2, l2⟩
      · exact Or.inl (e1 ▸ h2)
      · exact Or.inr ⟨e1.trans e2, l1.trans l2⟩

/-- Modelled from the behaviour of the external FAISS flat backends
(`IndexBinaryFlat` Hamming / `IndexFlatL2` squared L2), which the spec pins
down as exact nearest-neighbour search with ties broken by ascending slot
index: all slots sorted by `(distance, slot)`.  The distance function `dist`
abstracts over the two backends. -/
def searchCandidates {V : Type} (dist : V → V → ℚ) (s : FaissState V) (q : V) :
    List (Nat × ℚ) :=
  List.insertionSort lexLe (s.vectors.enum.map (fun p => (p.1, dist q p.2)))

/-- Embedding of `LightweightFAISSIndex.search`: empty index short-circuits;
otherwise take the `k` best candidates, drop slots outside
`[0, next_internal_id)` and slots with no id mapping, and return
`(doc_id, distance)` pairs. -/
def faissSearch {V : Type} (dist : V → V → ℚ) (s : FaissState V) (q : V) (k : Nat) :
    List (Nat × ℚ) :=
  if s.vectors.length = 0 then []
  else
    ((searchCandidates dist s q).take k).filterMap
      (fun p =>
        if p.1 < s.next_internal_id then
          (idMapLookup s.id_map p.1).map (fun doc => (doc, p.2))
        else none)

/-- Embedding of `LightweightFAISSIndex.remove`: drop every mapping whose
document id is listed; the slot (vector) itself is kept. -/
def faissRemove {V : Type} (s : FaissState V) (doc_ids : List Nat) : Nat × FaissState V :=
  let keep := s.id_map.filter (fun p => !(doc_ids.contains p.2))
  (s.id_map.length - keep.length, { s with id_map := keep })

/-! ### Metadata store (`lightweight_file_manager.py`) -/

/-- Row of the `files` table (the §3 Chunk record).  `created_at` is a
timestamp default and is omitted.  `total_chunks` is an `Int` because the
streaming processor inserts the sentinel `-1`. -/
structure ChunkRow where
  id : Nat
  file_hash : Nat
  file_path : String
  file_name : String
  file_type : String
  file_size : Nat
  text : List Char
  chunk_index : Nat
  total_chunks : Int
deriving DecidableEq, Repr

/-- Primary-key ordering of the `files` table. -/
def byId (a b : ChunkRow) : Prop := a.id ≤ b.id

instance byId.decRel : DecidableRel byId := fun a b => Nat.decLe a.id b.id

instance byId.total : IsTotal ChunkRow byId where
  total a b := Nat.le_total a.id b.id

instance byId.trans : IsTrans ChunkRow byId where
  trans _ _ _ hab hbc := Nat.le_trans hab hbc

/-- Rows in the order the `files` b-tree stores them: ascending rowid
(`id INTEGER PRIMARY KEY`). -/
def sortById (rows : List ChunkRow) : List ChunkRow :=
  List.insertionSort byId rows

/-- Embedding of `LightweightFileManager.fetch_by_id`.  The query is
`SELECT ... FROM files WHERE id IN (...)` with no ORDER BY: SQLite scans the
rowid b-tree, so matching rows come back in ascending id order, not in the
order of the input ids. -/
def fetchById (rows : List ChunkRow) (ids : List Nat) : List ChunkRow :=
  if ids.isEmpty then []
  else (sortById rows).filter (fun r => ids.contains r.id)

/-- Embedding of `LightweightFileManager.check_hash_exists`. -/
def checkHashExists (rows : List ChunkRow) (h : Nat) : Bool :=
  rows.any (fun r => r.file_hash = h)

/-- Embedding of `LightweightFileManager.get_max_id` (`MAX(id)`, 0 when the
table is empty; NULL/0 both map to 0). -/
def getMaxId (rows : List ChunkRow) : Nat :=
  rows.foldl (fun acc r => max acc r.id) 0

/-- Result row of `StreamingDocumentProcessor.search` (`round(score, 4)` is
a display rounding of a float and is omitted from the ℚ-valued score). -/
structure SearchRow where
  id : Nat
  file_name : String
  file_path : String
  text : List Char
  score : ℚ
deriving DecidableEq, Repr

/-- Embedding of the hydration loop of `StreamingDocumentProcessor.search`
(lines 430-450): fetch metadata for the doc ids, then `zip` the fetched
rows positionally with the distance-ordered ids and distances. -/
def hydrate (rows : List ChunkRow) (use_binary : Bool) (doc_ids : List Nat)
    (distances : List ℚ) : List SearchRow :=
  if doc_ids.isEmpty then []
  else
    let chunks := fetchById rows doc_ids
    (chunks.zip (doc_ids.zip distances)).map (fun p =>
      { id := p.2.1
        file_name := p.1.file_name
        file_path := p.1.file_path
        text := p.1.text
        score := if use_binary then 1 - p.2.2 / 384 else 1 / (1 + p.2.2) })

/-! ### Embedder quantization (`onnx_embedder.py`) -/

/-- Packing of one group of 8 float features into a byte, mirroring the loop
`packed |= binary_bits[:, :, i] << (7 - i)`: feature `i` contributes
`2 ^ (7 - i)` exactly when it is strictly positive. -/
def packByte (chunk : List ℚ) : Nat :=
  (chunk.enum.map (fun p => if 0 < p.2 then 2 ^ (7 - p.1) else 0)).sum

/-- Embedding of `ONNXEmbedder.quantize_binary` on one row: the reshape to
`[dims / 8, 8]` groups 8 consecutive features per output byte. -/
def quantizeRow (row : List ℚ) : List Nat :=
  (List.range (row.length / 8)).map (fun j => packByte ((row.drop (8 * j)).take 8))

/-- Embedding of `ONNXEmbedder.quantize_binary` on a matrix (row-wise). -/
def quantizeBinary (m : List (List ℚ)) : List (List Nat) :=
  m.map quantizeRow

/-! ### Streaming processor (`streaming_processor.py`) -/

/-- Description of a file on disk as the processor observes it:
existence, content hash (`compute_file_hash`, opaque here), path pieces and
raw text content. -/
structure FileDesc where
  fsExists : Bool
  hash : Nat
  path : String
  name : String
  suffix : String
  size : Nat
  content : List Char
deriving DecidableEq, Repr

/-- Extensions read directly by `StreamingDocumentProcessor._extract_text`. -/
def textExtensions : List String :=
  [".txt", ".md", ".json", ".csv", ".py", ".js", ".html", ".css"]

/-- Embedding of Python `str.lower()` for the ASCII strings the code
compares (suffixes and mode names). -/
def pyToLowerChar (c : Char) : Char :=
  if c.toNat ≥ 65 && c.toNat ≤ 90 then Char.ofNat (c.toNat + 32) else c

/-- Lowercase a whole string, character-wise. -/
def pyLower (s : String) : String :=
  String.mk (s.toList.map pyToLowerChar)

/-- Embedding of `StreamingDocumentProcessor._extract_text`: plain-text
extensions are read as-is, every other type yields empty text. -/
def extractText (f : FileDesc) : List Char :=
  if textExtensions.contains (pyLower f.suffix) then f.content else []

/-- Embedding of the `ProcessingResult` dataclass (`time_ms`, a wall-clock
measurement, is omitted). -/
structure ProcessingResult where
  success : Bool
  chunks_inserted : Nat
  mode : String
  oom_switched : Bool := false
  message : String := ""
  error : Option String := none
deriving DecidableEq, Repr

/-- Exceptions the processor can observe. -/
inductive PyError where
  | memoryError
  | valueError
deriving DecidableEq, Repr

instance exceptDecEq {ε α : Type} [DecidableEq ε] [DecidableEq α] :
    DecidableEq (Except ε α) := fun a b =>
  match a, b with
  | .ok x, .ok y =>
    if h : x = y then isTrue (by rw [h]) else isFalse (fun he => h (Except.ok.inj he))
  | .error e, .error e2 =>
    if h : e = e2 then isTrue (by rw [h]) else isFalse (fun he => h (Except.error.inj he))
  | .ok _, .error _ => isFalse (fun he => Except.noConfusion he)
  | .error _, .ok _ => isFalse (fun he => Except.noConfusion he)

/-- State of `StreamingDocumentProcessor`: operating mode, current chunker
settings, the one-shot downgrade flag, the OOM-protection toggle, the
metadata rows and the vector index.  The embedder is passed separately as a
function `embed`. -/
structure ProcessorState (V : Type) where
  mode : String
  chunker : ParagraphChunker
  mode_switched : Bool
  oom_protection : Bool
  rows : List ChunkRow
  faiss : FaissState V
deriving DecidableEq, Repr

/-- File type stored with each row: `path.suffix.lstrip('.').lower()`. -/
def fileTypeOf (f : FileDesc) : String :=
  String.mk ((pyLower f.suffix).toList.dropWhile (fun c => c = '.'))

/-- Per-chunk loop of `StreamingDocumentProcessor._process_chunks_streaming`:
skip whitespace-only chunks, embed (where a `MemoryError` strikes after
`failAfter` successful insertions, if given), add to the index, insert the
metadata row with the `total_chunks = -1` sentinel. -/
def insertLoop {V : Type} (embed : List Char → V) (s : ProcessorState V) (f : FileDesc) :
    List (List Char) → Nat → Nat → Nat → Option Nat → (Except PyError Nat) × ProcessorState V
  | [], _, _, inserted, _ => (.ok inserted, s)
  | c :: rest, chunk_index, current_id, inserted, failAfter =>
    if (pyStrip c).isEmpty then insertLoop embed s f rest chunk_index current_id inserted failAfter
    else if failAfter = some inserted then (.error .memoryError, s)
    else
      match faissAdd s.faiss [embed c] [current_id] with
      | none => (.error .valueError, s)
      | some (_, fs2) =>
        let row : ChunkRow :=
          { id := current_id
            file_hash := f.hash
            file_path := f.path
            file_name := f.name
            file_type := fileTypeOf f
            file_size := f.size
            text := c
            chunk_index := chunk_index
            total_chunks := -1 }
        insertLoop embed { s with faiss := fs2, rows := s.rows ++ [row] } f rest
          (chunk_index + 1) (current_id + 1) (inserted + 1) failAfter

/-- Embedding of `StreamingDocumentProcessor._update_total_chunks`. -/
def updateTotalChunks (rows : List ChunkRow) (start n : Nat) : List ChunkRow :=
  rows.map (fun r =>
    if start ≤ r.id ∧ r.id < start + n then { r with total_chunks := (n : Int) } else r)

/-- One attempt of `_process_chunks_streaming` without its `except` clause:
allocate `start_id = get_max_id() + 1`, run the chunk loop, then fill in
`total_chunks` when anything was inserted. -/
def processChunksOnce {V : Type} (embed : List Char → V) (s : ProcessorState V)
    (f : FileDesc) (text : List Char) (failAfter : Option Nat) :
    (Except PyError Nat) × ProcessorState V :=
  let start_id := getMaxId s.rows + 1
  match insertLoop embed s f (chunkStreaming s.chunker text) 0 start_id 0 failAfter with
  | (.ok n, s2) =>
    (.ok n, if 0 < n then { s2 with rows := updateTotalChunks s2.rows start_id n } else s2)
  | (.error e, s2) => (.error e, s2)

/-- Embedding of `StreamingDocumentProcessor._switch_to_eco_mode`: set the
mode and the one-shot flag, rebuild chunker and embedder with eco settings
(the embedding function itself is unchanged by the rebuild). -/
def switchToEco {V : Type} (s : ProcessorState V) : ProcessorState V :=
  { s with mode := "eco", mode_switched := true, chunker := createChunkerForMode "eco" }

/-- Embedding of `_process_chunks_streaming` including its `except
MemoryError` clause: on OOM with protection enabled and no prior downgrade,
switch to eco and retry with `text[len(text) // 2:]` (the second half of the
current text) when it is not whitespace-only; otherwise re-raise. -/
def processChunksStreaming {V : Type} (embed : List Char → V) (s : ProcessorState V)
    (f : FileDesc) (text : List Char) (failAfter : Option Nat) :
    (Except PyError Nat) × ProcessorState V :=
  match processChunksOnce embed s f text failAfter with
  | (.ok n, s2) => (.ok n, s2)
  | (.error .memoryError, s2) =>
    if s2.oom_protection && !s2.mode_switched then
      let s3 := switchToEco s2
      let remaining := text.drop (text.length / 2)
      if (pyStrip remaining).isEmpty then (.error .memoryError, s3)
      else processChunksOnce embed s3 f remaining none
    else (.error .memoryError, s2)
  | (.error e, s2) => (.error e, s2)

/-- Embedding of `StreamingDocumentProcessor._handle_oom`. -/
def handleOom {V : Type} (s : ProcessorState V) (progress : Nat) :
    ProcessingResult × ProcessorState V :=
  if !s.oom_protection then
    ({ success := false, chunks_inserted := progress, mode := s.mode,
       error := some "Out of memory" }, s)
  else
    ({ success := true, chunks_inserted := progress, mode := "eco", oom_switched := true,
       message := "Switched to ECO mode at chunk " ++ toString progress }, switchToEco s)

/-- Embedding of `StreamingDocumentProcessor.index_file`: missing file,
duplicate-hash and empty-text early returns, then the streaming loop; a
`MemoryError` escaping the loop is handled by `_handle_oom`, any other
exception becomes a failure result. -/
def indexFile {V : Type} (embed : List Char → V) (s : ProcessorState V) (f : FileDesc)
    (failAfter : Option Nat) : ProcessingResult × ProcessorState V :=
  if !f.fsExists then
    ({ success := false, chunks_inserted := 0, mode := s.mode,
       error := some ("File not found: " ++ f.path) }, s)
  else if checkHashExists s.rows f.hash then
    ({ success := true, chunks_inserted := 0, mode := s.mode,
       message := "File already indexed (duplicate)" }, s)
  else
    let text := extractText f
    if text.isEmpty || (pyStrip text).isEmpty then
      ({ success := false, chunks_inserted := 0, mode := s.mode,
         message := "No text content extracted" }, s)
    else
      match processChunksStreaming embed s f text failAfter with
      | (.ok n, s2) =>
        ({ success := true, chunks_inserted := n, mode := s2.mode,
           oom_switched := s2.mode_switched }, s2)
      | (.error .memoryError, s2) => handleOom s2 0
      | (.error .valueError, s2) =>
        ({ success := false, chunks_inserted := 0, mode := s2.mode,
           error := some "ValueError" }, s2)

/-! ### Adaptive pipeline (`adaptive_pipeline.py`) -/

/-- Mode-relevant state of `AdaptivePipeline` (the held processor is
re-created by `_init_mode`; only the pipeline-level fields matter for the
mode state machine). -/
structure PipelineState where
  current_mode : String
  auto_detected : Bool
  mode_switched : Bool
deriving DecidableEq, Repr

/-- Result dictionary of `AdaptivePipeline.switch_mode`. -/
structure SwitchResult where
  success : Bool
  previous_mode : String := ""
  new_mode : String := ""
  message : String := ""
  index_converted : Bool := false
  error : Option String := none
deriving DecidableEq, Repr

/-- Modes using the binary index representation. -/
def isBinaryMode (m : String) : Bool := m = "eco" || m = "balanced"

/-- Embedding of `AdaptivePipeline._needs_index_conversion`. -/
def needsIndexConversion (old new : String) : Bool :=
  isBinaryMode old != isBinaryMode new

/-- Valid operating modes. -/
def validModes : List String := ["eco", "balanced", "performance"]

/-- Embedding of `AdaptivePipeline.switch_mode` (processor re-creation in
`_init_mode` always succeeds in this model, so the rollback branch is not
reachable). -/
def switchMode (s : PipelineState) (new_mode : String) : SwitchResult × PipelineState :=
  let nm := pyLower new_mode
  if !validModes.contains nm then
    ({ success := false,
       error := some ("Invalid mode: " ++ nm ++
         ". Must be 'eco', 'balanced', or 'performance'") }, s)
  else if nm = s.current_mode then
    ({ success := true, previous_mode := s.current_mode, new_mode := nm,
       message := "Already in " ++ nm ++ " mode", index_converted := false }, s)
  else
    ({ success := true, previous_mode := s.current_mode, new_mode := nm,
       message := "Switched to " ++ nm ++ " mode",
       index_converted := needsIndexConversion s.current_mode nm },
     { s with current_mode := nm, auto_detected := false })

/-! ### Concrete instances used by counterexamples and witnesses -/

/-- Counterexample text for the chunk-length claim: a 60-character run of
`a` (so the overlap text is taken raw), a blank line, then 154 repetitions
of `ab ` (a 461-character paragraph, after stripping, full of spaces). -/
def cexText : List Char :=
  List.replicate 60 'a' ++ ['\n', '\n'] ++ (List.replicate 154 ['a', 'b', ' ']).flatten

/-- Trivial concrete embedder used to instantiate processor runs. -/
def embed0 : List Char → Nat := fun _ => 0

/-- Demo metadata row with id 1. -/
def demoRow1 : ChunkRow :=
  { id := 1, file_hash := 11, file_path := "/d/a.txt", file_name := "a.txt",
    file_type := "txt", file_size := 3, text := "aaa".toList, chunk_index := 0,
    total_chunks := 1 }

/-- Demo metadata row with id 2. -/
def demoRow2 : ChunkRow :=
  { id := 2, file_hash := 22, file_path := "/d/b.txt", file_name := "b.txt",
    file_type := "txt", file_size := 3, text := "bbb".toList, chunk_index := 0,
    total_chunks := 1 }

/-- Demo metadata table holding rows 1 and 2 in insertion order. -/
def demoRows : List ChunkRow := [demoRow1, demoRow2]

/-- Processor state whose store already holds `demoRow1` (hash 11). -/
def demoProcState : ProcessorState Nat :=
  { mode := "balanced", chunker := createChunkerForMode "balanced", mode_switched := false,
    oom_protection := true, rows := [demoRow1], faiss := ⟨[], [], 0⟩ }

/-- Fresh processor state with empty store and index. -/
def procState0 : ProcessorState Nat :=
  { mode := "balanced", chunker := createChunkerForMode "balanced", mode_switched := false,
    oom_protection := true, rows := [], faiss := ⟨[], [], 0⟩ }

/-- File whose hash 11 collides with the row already in `demoProcState`. -/
def demoFile : FileDesc :=
  { fsExists := true, hash := 11, path := "/d/a.txt", name := "a.txt", suffix := ".txt",
    size := 3, content := "aaa".toList }

/-- Existing file whose extracted text is whitespace-only. -/
def emptyFile : FileDesc :=
  { fsExists := true, hash := 33, path := "/d/e.txt", name := "e.txt", suffix := ".txt",
    size := 2, content := "  ".toList }

/-- File used in the OOM-retry scenario. -/
def oomFile : FileDesc :=
  { fsExists := true, hash := 44, path := "/d/o.txt", name := "o.txt", suffix := ".txt",
    size := 20, content := "alpha beta gamma del".toList }

/-- Text being processed when the modelled MemoryError strikes. -/
def cexProcText : List Char := "alpha beta gamma del".toList

end FileSense

set_option maxRecDepth 100000

namespace FileSense

/-! ### Helper lemmas -/

theorem pyStrip_length_le (s : List Char) : (pyStrip s).length ≤ s.length := by
  unfold pyStrip
  calc ((s.dropWhile pyIsSpace).reverse.dropWhile pyIsSpace).reverse.length
      = ((s.dropWhile pyIsSpace).reverse.dropWhile pyIsSpace).length := List.length_reverse _
    _ ≤ (s.dropWhile pyIsSpace).reverse.length := (List.dropWhile_sublist _).length_le
    _ = (s.dropWhile pyIsSpace).length := List.length_reverse _
    _ ≤ s.length := (List.dropWhile_sublist _).length_le

theorem dropWhile_of_all {p : Char → Bool} :
    ∀ {l : List Char}, (∀ c ∈ l, p c = false) → l.dropWhile p = l := by
  intro l h
  cases l with
  | nil => rfl
  | cons c t => simp [List.dropWhile, h c (List.mem_cons_self c t)]

theorem pyStrip_of_all {s : List Char} (h : s.all (fun c => !pyIsSpace c) = true) :
    pyStrip s = s := by
  have h2 : ∀ c ∈ s, pyIsSpace c = false := by
    intro c hc
    have := (List.all_eq_true.mp h) c hc
    simpa using this
  unfold pyStrip
  rw [dropWhile_of_all h2, dropWhile_of_all (by intro c hc; exact h2 c (List.mem_reverse.mp hc)),
    List.reverse_reverse]

theorem overlapAfterWord_length_le (ot : List Char) :
    (overlapAfterWord ot).length ≤ ot.length := by
  unfold overlapAfterWord
  cases pyFindAux [' '] ot with
  | none => exact le_refl _
  | some j => exact (List.drop_sublist (j + 1) ot).length_le

theorem getOverlapText_length_le (ov : Nat) (t : List Char) :
    (getOverlapText ov t).length ≤ ov := by
  unfold getOverlapText
  split
  · simp
  · split
    · omega
    · rename_i h0 hlen
      dsimp only
      have hdrop : (t.drop (t.length - ov)).length = ov := by
        rw [List.length_drop]
        omega
      cases hfind : pyFindAux ['.', ' '] (t.drop (t.length - ov)) with
      | none =>
        simp only [hfind]
        exact (overlapAfterWord_length_le _).trans (le_of_eq hdrop)
      | some i =>
        simp only [hfind]
        split
        · exact (List.drop_sublist _ _).length_le.trans (le_of_eq hdrop)
        · exact (overlapAfterWord_length_le _).trans (le_of_eq hdrop)

theorem wordsStep_chars :
    ∀ (s : List Char) (w : List Char), w ∈ s.foldr wordsStep [] →
      ∀ c ∈ w, pyIsSpace c = false := by
  intro s
  induction s with
  | nil => intro w hw; simp at hw
  | cons a t ih =>
    intro w hw c hc
    rw [List.foldr_cons] at hw
    cases hacc : List.foldr wordsStep [] t with
    | nil =>
      rw [hacc] at hw
      unfold wordsStep at hw
      by_cases ha : pyIsSpace a
      · rw [if_pos ha] at hw
        simp at hw
        subst hw
        simp at hc
      · rw [if_neg ha] at hw
        simp at hw
        subst hw
        simp at hc
        subst hc
        simpa using ha
    | cons w0 ws =>
      rw [hacc] at hw
      unfold wordsStep at hw
      by_cases ha : pyIsSpace a
      · rw [if_pos ha] at hw
        rcases List.mem_cons.mp hw with h | h
        · subst h; simp at hc
        · exact ih w (by rw [hacc]; exact h) c hc
      · rw [if_neg ha] at hw
        rcases List.mem_cons.mp hw with h | h
        · subst h
          rcases List.mem_cons.mp hc with h2 | h2
          · subst h2; simpa using ha
          · exact ih w0 (by rw [hacc]; exact List.mem_cons_self _ _) c h2
        · exact ih w (by rw [hacc]; exact List.mem_cons_of_mem _ h) c hc

theorem pyWords_all_nonspace {s : List Char} {w : List Char} (hw : w ∈ pyWords s) :
    w.all (fun c => !pyIsSpace c) = true := by
  have hmem : w ∈ s.foldr wordsStep [] := List.mem_of_mem_filter hw
  rw [List.all_eq_true]
  intro c hc
  simpa using wordsStep_chars s w hmem c hc

/-- Property shared by every emitted chunk: within the size bound, or a
single whitespace-free token above it. -/
def ChunkOk (bound tokenBound : Nat) (c : List Char) : Prop :=
  c.length ≤ bound ∨ (c.all (fun ch => !pyIsSpace ch) = true ∧ tokenBound < c.length)

theorem emit_strip_ok {maxSize : Nat} {cur : List Char}
    (hinv : cur.length ≤ maxSize ∨ cur.all (fun c => !pyIsSpace c) = true) :
    ChunkOk maxSize maxSize (pyStrip cur) := by
  rcases hinv with h | h
  · exact Or.inl ((pyStrip_length_le cur).trans h)
  · rw [pyStrip_of_all h]
    by_cases hlen : cur.length ≤ maxSize
    · exact Or.inl hlen
    · exact Or.inr ⟨h, Nat.lt_of_not_le hlen⟩

theorem goWords_bound (maxSize : Nat) :
    ∀ (ws : List (List Char)) (cur : List Char),
      (cur.length ≤ maxSize ∨ cur.all (fun c => !pyIsSpace c) = true) →
      (∀ w ∈ ws, w.all (fun c => !pyIsSpace c) = true) →
      ∀ c ∈ goWords maxSize ws cur, ChunkOk maxSize maxSize c := by
  intro ws
  induction ws with
  | nil =>
    intro cur hinv _ c hc
    unfold goWords at hc
    split at hc
    · simp at hc
    · simp at hc
      subst hc
      exact emit_strip_ok hinv
  | cons w ws ih =>
    intro cur hinv hws c hc
    unfold goWords at hc
    split at hc
    · rename_i hfits
      refine ih _ ?_ (fun x hx => hws x (List.mem_cons_of_mem _ hx)) c hc
      split
      · exact Or.inr (hws w (List.mem_cons_self _ _))
      · left
        simp only [List.length_append, List.length_cons, List.length_nil]
        omega
    · rcases List.mem_append.mp hc with hl | hr
      · split at hl
        · simp at hl
        · simp at hl
          subst hl
          exact emit_strip_ok hinv
      · exact ih w (Or.inr (hws w (List.mem_cons_self _ _)))
          (fun x hx => hws x (List.mem_cons_of_mem _ hx)) c hr

theorem splitByWords_bound (maxSize : Nat) (t : List Char) :
    ∀ c ∈ splitByWords maxSize t, ChunkOk maxSize maxSize c := by
  intro c hc
  exact goWords_bound maxSize (pyWords t) [] (Or.inl (Nat.zero_le _))
    (fun w hw => pyWords_all_nonspace hw) c hc

theorem goSentences_bound (maxSize : Nat) :
    ∀ (ss : List (List Char)) (cur : List Char), cur.length ≤ maxSize →
      ∀ c ∈ goSentences maxSize ss cur, ChunkOk maxSize maxSize c := by
  intro ss
  induction ss with
  | nil =>
    intro cur hinv c hc
    unfold goSentences at hc
    split at hc
    · simp at hc
    · simp at hc
      subst hc
      exact emit_strip_ok (Or.inl hinv)
  | cons s ss ih =>
    intro cur hinv c hc
    simp only [goSentences] at hc
    split at hc
    · exact ih cur hinv c hc
    · split at hc
      · rcases List.mem_append.mp hc with h1 | h2
        · rcases List.mem_append.mp h1 with ha | hb
          · split at ha
            · simp at ha
            · simp at ha
              subst ha
              exact emit_strip_ok (Or.inl hinv)
          · exact splitByWords_bound maxSize _ c hb
        · exact ih [] (Nat.zero_le _) c h2
      · split at hc
        · rename_i hbig hfits
          refine ih _ ?_ c hc
          split
          · omega
          · simp only [List.length_append, List.length_cons, List.length_nil]
            omega
        · rename_i hbig hfits
          rcases List.mem_append.mp hc with hl | hr
          · split at hl
            · simp at hl
            · simp at hl
              subst hl
              exact emit_strip_ok (Or.inl hinv)
          · exact ih _ (by omega) c hr

theorem splitLargeParagraph_bound (maxSize : Nat) (para : List Char) :
    ∀ c ∈ splitLargeParagraph maxSize para, ChunkOk maxSize maxSize c := by
  intro c hc
  exact goSentences_bound maxSize (pySplitSentences para) [] (Nat.zero_le _) c hc

theorem goParagraphs_bound (ck : ParagraphChunker) :
    ∀ (ps : List (List Char)) (cur : List Char),
      cur.length ≤ ck.max_chunk_size + ck.overlap + 2 →
      ∀ c ∈ goParagraphs ck ps cur,
        ChunkOk (ck.max_chunk_size + ck.overlap + 2) ck.max_chunk_size c := by
  intro ps
  induction ps with
  | nil =>
    intro cur hinv c hc
    unfold goParagraphs at hc
    split at hc
    · simp at hc
    · simp at hc
      subst hc
      exact Or.inl ((pyStrip_length_le cur).trans hinv)
  | cons p ps ih =>
    intro cur hinv c hc
    simp only [goParagraphs] at hc
    split at hc
    · exact ih cur hinv c hc
    · split at hc
      · rcases List.mem_append.mp hc with h1 | h2
        · rcases List.mem_append.mp h1 with ha | hb
          · split at ha
            · simp at ha
            · simp at ha
              subst ha
              exact Or.inl ((pyStrip_length_le cur).trans hinv)
          · rcases splitLargeParagraph_bound ck.max_chunk_size _ c hb with h | h
            · exact Or.inl (by omega)
            · exact Or.inr h
        · exact ih [] (by simp) c h2
      · split at hc
        · rename_i hbig hfits
          refine ih _ ?_ c hc
          split
          · omega
          · simp only [List.length_append, List.length_cons, List.length_nil]
            omega
        · rename_i hbig hfits
          rcases List.mem_append.mp hc with hl | hr
          · split at hl
            · simp at hl
            · simp at hl
              subst hl
              exact Or.inl ((pyStrip_length_le cur).trans hinv)
          · refine ih _ ?_ c hr
            split
            · rename_i hov
              have hot := getOverlapText_length_le ck.overlap cur
              split
              · omega
              · simp only [List.length_append, List.length_cons, List.length_nil]
                omega
            · omega

theorem chunkStreaming_bound (ck : ParagraphChunker) (text : List Char) :
    ∀ c ∈ chunkStreaming ck text,
      ChunkOk (ck.max_chunk_size + ck.overlap + 2) ck.max_chunk_size c := by
  intro c hc
  unfold chunkStreaming at hc
  split at hc
  · simp at hc
  · exact goParagraphs_bound ck (splitParagraphs text) [] (by simp) c hc

/-! ### Claim C1 -/

/-- Claim C1, corrected.  The original claim (every chunk is at most
`max_chunk_size` characters except indivisible tokens) fails: a chunk built
by prepending overlap text to a paragraph can reach
`max_chunk_size + overlap + 2` characters.  Amended statement: for every
mode and input text, every chunk produced by `chunk_streaming` with that
mode's settings has length at most `max_chunk_size + overlap + 2`, except
when the chunk is a single indivisible (whitespace-free) token longer than
`max_chunk_size`. -/
theorem claim1_amended (mode : String) (text : List Char) (c : List Char)
    (hc : c ∈ chunkStreaming (createChunkerForMode mode) text) :
    c.length ≤ (createChunkerForMode mode).max_chunk_size +
        (createChunkerForMode mode).overlap + 2 ∨
      (c ≠ [] ∧ c.all (fun ch => !pyIsSpace ch) = true ∧
        (createChunkerForMode mode).max_chunk_size < c.length) := by
  rcases chunkStreaming_bound (createChunkerForMode mode) text c hc with h | ⟨hall, hlen⟩
  · exact Or.inl h
  · refine Or.inr ⟨?_, hall, hlen⟩
    intro hnil
    rw [hnil] at hlen
    simp at hlen

/-- Witness for the amended claim C1 at a concrete chunk. -/
theorem claim1_amended_witness :
    "hello".toList.length ≤ (createChunkerForMode "balanced").max_chunk_size +
        (createChunkerForMode "balanced").overlap + 2 ∨
      ("hello".toList ≠ [] ∧ "hello".toList.all (fun ch => !pyIsSpace ch) = true ∧
        (createChunkerForMode "balanced").max_chunk_size < "hello".toList.length) :=
  claim1_amended "balanced" "hello".toList "hello".toList (by decide)

/-- Counterexample to claim C1 as stated: in eco mode
(`max_chunk_size = 512`, `overlap = 50`), the text `cexText` produces a
513-character chunk that contains whitespace (so it is not a single
indivisible token): the chunk formed as overlap (50) + separator (2) +
stripped second paragraph (461). -/
theorem claim1_counterexample :
    ∃ c, c ∈ chunkStreaming (createChunkerForMode "eco") cexText ∧
      (createChunkerForMode "eco").max_chunk_size < c.length ∧ c.any pyIsSpace = true := by
  decide

/-! ### Claim C9 -/

/-- Claim C9, confirmed: the chunker is deterministic — two chunker
instances with equal `(max_chunk_size, overlap, min_chunk_size)` settings
produce identical chunk sequences on the same text. -/
theorem claim9_determinism (c1 c2 : ParagraphChunker) (text : List Char)
    (h1 : c1.max_chunk_size = c2.max_chunk_size) (h2 : c1.overlap = c2.overlap)
    (h3 : c1.min_chunk_size = c2.min_chunk_size) :
    chunkStreaming c1 text = chunkStreaming c2 text := by
  cases c1
  cases c2
  simp_all

/-- Witness for claim C9 at concrete settings and text. -/
theorem claim9_determinism_witness :
    chunkStreaming ⟨512, 50, 100⟩ "one two".toList =
      chunkStreaming ⟨512, 50, 100⟩ "one two".toList :=
  claim9_determinism ⟨512, 50, 100⟩ ⟨512, 50, 100⟩ "one two".toList rfl rfl rfl

/-! ### Binary quantization lemmas (claim C3) -/

theorem exists_eight {α : Type} (l : List α) (h : l.length = 8) :
    ∃ x0 x1 x2 x3 x4 x5 x6 x7, l = [x0, x1, x2, x3, x4, x5, x6, x7] := by
  rcases l with _ | ⟨x0, l⟩
  · simp at h
  rcases l with _ | ⟨x1, l⟩
  · simp at h
  rcases l with _ | ⟨x2, l⟩
  · simp at h
  rcases l with _ | ⟨x3, l⟩
  · simp at h
  rcases l with _ | ⟨x4, l⟩
  · simp at h
  rcases l with _ | ⟨x5, l⟩
  · simp at h
  rcases l with _ | ⟨x6, l⟩
  · simp at h
  rcases l with _ | ⟨x7, l⟩
  · simp at h
  rcases l with _ | ⟨x8, l⟩
  · exact ⟨x0, x1, x2, x3, x4, x5, x6, x7, rfl⟩
  · simp at h

theorem testBit_pack8 (b0 b1 b2 b3 b4 b5 b6 b7 : Bool) (i : Fin 8) :
    Nat.testBit (cond b0 128 0 + cond b1 64 0 + cond b2 32 0 + cond b3 16 0 +
        cond b4 8 0 + cond b5 4 0 + cond b6 2 0 + cond b7 1 0) (7 - i.val) =
      [b0, b1, b2, b3, b4, b5, b6, b7].get i := by
  revert i b0 b1 b2 b3 b4 b5 b6 b7
  decide

theorem packByte_explicit (x0 x1 x2 x3 x4 x5 x6 x7 : ℚ) :
    packByte [x0, x1, x2, x3, x4, x5, x6, x7] =
      cond (decide (0 < x0)) 128 0 + cond (decide (0 < x1)) 64 0 +
      cond (decide (0 < x2)) 32 0 + cond (decide (0 < x3)) 16 0 +
      cond (decide (0 < x4)) 8 0 + cond (decide (0 < x5)) 4 0 +
      cond (decide (0 < x6)) 2 0 + cond (decide (0 < x7)) 1 0 := by
  simp only [packByte, List.enum, List.enumFrom, List.map, List.sum_cons, List.sum_nil,
    Bool.cond_decide]
  norm_num
  omega

theorem packByte_testBit (chunk : List ℚ) (h : chunk.length = 8) (i : Fin 8) :
    Nat.testBit (packByte chunk) (7 - i.val) = decide (0 < chunk.getD i.val 0) := by
  obtain ⟨x0, x1, x2, x3, x4, x5, x6, x7, rfl⟩ := exists_eight chunk h
  rw [packByte_explicit, testBit_pack8]
  fin_cases i <;> rfl

theorem quantizeRow_getD (row : List ℚ) (h : row.length = 384) (j : Nat) (hj : j < 48) :
    (quantizeRow row).getD j 0 = packByte ((row.drop (8 * j)).take 8) := by
  unfold quantizeRow
  rw [h]
  rw [List.getD_eq_getElem?_getD, List.getElem?_map, List.getElem?_range (by omega)]
  simp

theorem drop_take_length (row : List ℚ) (n : Nat) (h : n + 8 ≤ row.length) :
    ((row.drop n).take 8).length = 8 := by
  rw [List.length_take, List.length_drop]
  omega

theorem drop_take_getD (row : List ℚ) (n i : Nat) (hi : i < 8) :
    ((row.drop n).take 8).getD i 0 = row.getD (n + i) 0 := by
  rw [List.getD_eq_getElem?_getD, List.getD_eq_getElem?_getD, List.getElem?_take,
    List.getElem?_drop]
  simp [hi]

/-! ### Claim C3 -/

/-- Claim C3, confirmed: for every float matrix whose rows have dimension
384, `quantize_binary` sets bit `i` of a row's byte `j` (counting the most
significant bit of the byte as bit 0, so bit 0 maps to 0x80) to 1 exactly
when feature `8 j + i` is strictly positive; and a row whose first eight
features have signs `+ - + - - + - +` gets 0xA5 = 165 as its first packed
byte. -/
theorem claim3_binary_packing (m : List (List ℚ)) (row : List ℚ) (hrow : row ∈ m)
    (hlen : row.length = 384) :
    quantizeRow row ∈ quantizeBinary m ∧
    (∀ j : Fin 48, ∀ i : Fin 8,
      Nat.testBit ((quantizeRow row).getD j.val 0) (7 - i.val) =
        decide (0 < row.getD (8 * j.val + i.val) 0)) ∧
    (0 < row.getD 0 0 → ¬0 < row.getD 1 0 → 0 < row.getD 2 0 → ¬0 < row.getD 3 0 →
      ¬0 < row.getD 4 0 → 0 < row.getD 5 0 → ¬0 < row.getD 6 0 → 0 < row.getD 7 0 →
      (quantizeRow row).getD 0 0 = 165) := by
  refine ⟨List.mem_map_of_mem _ hrow, ?_, ?_⟩
  · intro j i
    rw [quantizeRow_getD row hlen j.val j.isLt,
      packByte_testBit _ (drop_take_length row (8 * j.val) (by omega)) i,
      drop_take_getD row (8 * j.val) i.val i.isLt]
  · intro h0 h1 h2 h3 h4 h5 h6 h7
    rw [quantizeRow_getD row hlen 0 (by norm_num)]
    obtain ⟨x0, x1, x2, x3, x4, x5, x6, x7, heq⟩ :=
      exists_eight ((row.drop (8 * 0)).take 8) (drop_take_length row (8 * 0) (by omega))
    have hv : ∀ i : Nat, i < 8 → row.getD i 0 = [x0, x1, x2, x3, x4, x5, x6, x7].getD i 0 := by
      intro i hi
      rw [← heq, drop_take_getD row (8 * 0) i hi]
      norm_num
    rw [hv 0 (by omega)] at h0
    rw [hv 1 (by omega)] at h1
    rw [hv 2 (by omega)] at h2
    rw [hv 3 (by omega)] at h3
    rw [hv 4 (by omega)] at h4
    rw [hv 5 (by omega)] at h5
    rw [hv 6 (by omega)] at h6
    rw [hv 7 (by omega)] at h7
    simp only [List.getD_cons_zero, List.getD_cons_succ] at h0 h1 h2 h3 h4 h5 h6 h7
    rw [heq, packByte_explicit]
    simp only [decide_eq_true h0, decide_eq_true h2, decide_eq_true h5, decide_eq_true h7,
      decide_eq_false h1, decide_eq_false h3, decide_eq_false h4, decide_eq_false h6]
    norm_num

/-- Concrete 384-dimensional row realizing the S6 sign pattern. -/
def s6Row : List ℚ :=
  [(1 : ℚ)/10, -(2 : ℚ)/10, (3 : ℚ)/10, -(4 : ℚ)/10, -(5 : ℚ)/10, (6 : ℚ)/10,
    -(7 : ℚ)/10, (8 : ℚ)/10] ++ List.replicate 376 (-(1 : ℚ))

/-- Witness for claim C3: the S6 vector packs its first byte to 0xA5. -/
theorem claim3_binary_packing_witness : (quantizeRow s6Row).getD 0 0 = 165 :=
  (claim3_binary_packing [s6Row] s6Row (by simp) (by simp [s6Row])).2.2
    (by norm_num [s6Row]) (by norm_num [s6Row]) (by norm_num [s6Row]) (by norm_num [s6Row])
    (by norm_num [s6Row]) (by norm_num [s6Row]) (by norm_num [s6Row]) (by norm_num [s6Row])

/-! ### Claim C10 -/

/-- Claim C10, confirmed: calling `add` with an empty embeddings matrix or
an empty id list returns `False` without raising, and the index state
(vectors, `slot_to_id`, `next_slot`) is unchanged. -/
theorem claim10_add_empty {V : Type} (s : FaissState V) (embeddings : List V)
    (doc_ids : List Nat) (h : embeddings = [] ∨ doc_ids = []) :
    faissAdd s embeddings doc_ids = some (false, s) := by
  rcases h with h | h <;> subst h <;> simp [faissAdd]

/-- Witness for claim C10 on a concrete non-empty index. -/
theorem claim10_add_empty_witness :
    faissAdd (⟨[9], [(0, 5)], 1⟩ : FaissState Nat) [] [7] =
      some (false, ⟨[9], [(0, 5)], 1⟩) :=
  claim10_add_empty ⟨[9], [(0, 5)], 1⟩ [] [7] (Or.inl rfl)

/-! ### Search ordering lemmas (claim C7) -/

theorem pairwise_filterMap_of {α β : Type} (f : α → Option β) {R : α → α → Prop}
    {S : β → β → Prop}
    (hf : ∀ a b a2 b2, R a b → f a = some a2 → f b = some b2 → S a2 b2) :
    ∀ {l : List α}, l.Pairwise R → (l.filterMap f).Pairwise S := by
  intro l hl
  induction hl with
  | nil => simp
  | @cons a t hhead htail ih =>
    rw [List.filterMap_cons]
    cases hfa : f a with
    | none => exact ih
    | some b =>
      refine List.Pairwise.cons ?_ ih
      intro b2 hb2
      obtain ⟨a2, ha2t, hfa2⟩ := List.mem_filterMap.mp hb2
      exact hf a a2 b b2 (hhead a2 ha2t) hfa hfa2

theorem searchCandidates_sorted {V : Type} (dist : V → V → ℚ) (s : FaissState V) (q : V) :
    (searchCandidates dist s q).Pairwise lexLe :=
  List.sorted_insertionSort lexLe _

theorem searchCandidates_perm {V : Type} (dist : V → V → ℚ) (s : FaissState V) (q : V) :
    List.Perm (searchCandidates dist s q)
      (s.vectors.enum.map (fun p => (p.1, dist q p.2))) :=
  List.perm_insertionSort lexLe _

theorem searchCandidates_fst_nodup {V : Type} (dist : V → V → ℚ) (s : FaissState V) (q : V) :
    ((searchCandidates dist s q).map Prod.fst).Nodup := by
  have h1 : (s.vectors.enum.map (fun p : Nat × V => (p.1, dist q p.2))).map Prod.fst =
      List.range s.vectors.length := by
    rw [List.map_map]
    have h2 : (Prod.fst ∘ fun p : Nat × V => (p.1, dist q p.2)) = Prod.fst := rfl
    rw [h2, List.enum_map_fst]
  exact (((searchCandidates_perm dist s q).map Prod.fst).nodup_iff).mpr
    (h1 ▸ List.nodup_range s.vectors.length)

/-! ### Claim C7 -/

/-- Claim C7, confirmed.  For every distance function (the FAISS flat
backends, here abstracted), state, query and `k`: the index search returns
at most `k` pairs; the returned distances are non-decreasing; every returned
pair comes from a live slot below `next_internal_id` whose id mapping is
present (so no removed slot is returned) and carries that slot's distance to
the query; and the candidate ranking is strictly ordered by distance with
ties broken by ascending slot index. -/
theorem claim7_search_spec {V : Type} (dist : V → V → ℚ) (s : FaissState V) (q : V)
    (k : Nat) :
    (faissSearch dist s q k).length ≤ k ∧
    ((faissSearch dist s q k).map Prod.snd).Pairwise (· ≤ ·) ∧
    (∀ p ∈ faissSearch dist s q k, ∃ slot v, slot < s.next_internal_id ∧
      idMapLookup s.id_map slot = some p.1 ∧ s.vectors[slot]? = some v ∧
      p.2 = dist q v) ∧
    (searchCandidates dist s q).Pairwise
      (fun a b => a.2 < b.2 ∨ (a.2 = b.2 ∧ a.1 < b.1)) := by
  have hstrict : (searchCandidates dist s q).Pairwise
      (fun a b => a.2 < b.2 ∨ (a.2 = b.2 ∧ a.1 < b.1)) := by
    have hne : (searchCandidates dist s q).Pairwise (fun a b => a.1 ≠ b.1) :=
      List.pairwise_map.mp (searchCandidates_fst_nodup dist s q)
    refine ((searchCandidates_sorted dist s q).and hne).imp ?_
    intro a b hab
    rcases hab with ⟨hle | ⟨he, hle⟩, hne2⟩
    · exact Or.inl hle
    · exact Or.inr ⟨he, lt_of_le_of_ne hle hne2⟩
  refine ⟨?_, ?_, ?_, hstrict⟩
  · unfold faissSearch
    split
    · simp
    · exact (List.length_filterMap_le _ _).trans (List.length_take_le _ _)
  · unfold faissSearch
    split
    · simp
    · refine List.pairwise_map.mpr ?_
      refine pairwise_filterMap_of _ ?_ (((searchCandidates_sorted dist s q)).sublist
        (List.take_sublist k _))
      intro a b a2 b2 hab ha hb
      split at ha
      · split at hb
        · obtain ⟨da, _, hda2⟩ := Option.map_eq_some'.mp ha
          obtain ⟨db, _, hdb2⟩ := Option.map_eq_some'.mp hb
          rw [← hda2, ← hdb2]
          rcases hab with h | ⟨h, _⟩
          · exact le_of_lt h
          · exact le_of_eq h
        · exact absurd hb (by simp)
      · exact absurd ha (by simp)
  · intro p hp
    unfold faissSearch at hp
    split at hp
    · simp at hp
    · obtain ⟨cand, hctake, hfc⟩ := List.mem_filterMap.mp hp
      split at hfc
      · rename_i hlt
        obtain ⟨doc, hdoc, hdoc2⟩ := Option.map_eq_some'.mp hfc
        have hcmem : cand ∈ searchCandidates dist s q :=
          (List.take_sublist k _).subset hctake
        have hcmem2 : cand ∈ s.vectors.enum.map (fun p2 : Nat × V => (p2.1, dist q p2.2)) :=
          ((searchCandidates_perm dist s q).mem_iff).mp hcmem
        obtain ⟨⟨i, v⟩, hienum, hiv⟩ := List.mem_map.mp hcmem2
        have hget : s.vectors[i]? = some v := List.mk_mem_enum_iff_getElem?.mp hienum
        refine ⟨cand.1, v, hlt, ?_, ?_, ?_⟩
        · rw [hdoc, ← hdoc2]
        · rw [← hiv]
          exact hget
        · rw [← hdoc2, ← hiv]
      · exact absurd hfc (by simp)

/-! ### Metadata fetch lemmas (claim C2) -/

theorem sortById_pairwise (rows : List ChunkRow) : (sortById rows).Pairwise byId :=
  List.sorted_insertionSort byId rows

theorem sortById_perm (rows : List ChunkRow) : List.Perm (sortById rows) rows :=
  List.perm_insertionSort byId rows

theorem contains_eq_of_mem_iff {ids ids2 : List Nat} (h : ∀ x : Nat, x ∈ ids ↔ x ∈ ids2)
    (x : Nat) : ids.contains x = ids2.contains x := by
  have e1 : ids.contains x = decide (x ∈ ids) := List.elem_eq_mem x ids
  have e2 : ids2.contains x = decide (x ∈ ids2) := List.elem_eq_mem x ids2
  rw [e1, e2]
  exact decide_eq_decide.mpr (h x)

/-! ### Claim C2 -/

/-- Claim C2, corrected.  The original claim (`fetch_by_id` returns records
in the order of the input ids, so the i-th hydrated search row carries the
metadata of the i-th doc id) fails: the SQL query has no ORDER BY and SQLite
returns matching rows in ascending primary-key order.  Amended statement:
`fetch_by_id` returns exactly the rows whose id is listed, in ascending id
order, independent of the order of the input ids; and in `search`, the i-th
result row takes its `id` from the i-th doc id (distance order) but its
`file_name` / `file_path` / `text` from the i-th *fetched* row (ascending id
order), which is the claimed pairing only when the two orders agree. -/
theorem claim2_amended (rows : List ChunkRow) (ids ids2 : List Nat)
    (hsame : ∀ x : Nat, x ∈ ids ↔ x ∈ ids2) :
    fetchById rows ids = fetchById rows ids2 ∧
    (fetchById rows ids).Pairwise byId ∧
    (∀ r : ChunkRow, r ∈ fetchById rows ids ↔ r ∈ rows ∧ r.id ∈ ids) ∧
    (∀ (ub : Bool) (ds : List ℚ) (i : Nat) (sr : SearchRow),
      (hydrate rows ub ids ds)[i]? = some sr →
        ids[i]? = some sr.id ∧
        ∃ c : ChunkRow, (fetchById rows ids)[i]? = some c ∧
          sr.file_name = c.file_name ∧ sr.file_path = c.file_path ∧ sr.text = c.text) := by
  refine ⟨?_, ?_, ?_, ?_⟩
  · unfold fetchById
    by_cases hids : ids.isEmpty
    · have hids2 : ids2.isEmpty = true := by
        rcases ids2 with _ | ⟨a, t⟩
        · rfl
        · exact absurd ((hsame a).mpr (List.mem_cons_self a t))
            (by simp [List.isEmpty_iff.mp hids])
      simp [hids, hids2]
    · have hids2 : ids2.isEmpty = false := by
        rcases ids with _ | ⟨a, t⟩
        · simp at hids
        · rcases ids2 with _ | _
          · exact absurd ((hsame a).mp (List.mem_cons_self a t)) (by simp)
          · rfl
      simp only [Bool.not_eq_true] at hids
      rw [hids, hids2]
      simp only [Bool.false_eq_true, if_false]
      exact List.filter_congr (fun r _ => contains_eq_of_mem_iff hsame r.id)
  · unfold fetchById
    split
    · simp
    · exact (sortById_pairwise rows).filter _
  · intro r
    unfold fetchById
    split
    · rename_i he
      simp [List.isEmpty_iff.mp he]
    · rw [List.mem_filter]
      constructor
      · rintro ⟨h1, h2⟩
        exact ⟨(sortById_perm rows).mem_iff.mp h1, by simpa using h2⟩
      · rintro ⟨h1, h2⟩
        exact ⟨(sortById_perm rows).mem_iff.mpr h1, by simpa using h2⟩
  · intro ub ds i sr hsr
    unfold hydrate at hsr
    split at hsr
    · simp at hsr
    · rw [List.getElem?_map] at hsr
      obtain ⟨⟨c, d, dd⟩, hz, hg⟩ := Option.map_eq_some'.mp hsr
      rw [List.getElem?_zip_eq_some] at hz
      obtain ⟨hc, hdd⟩ := hz
      rw [List.getElem?_zip_eq_some] at hdd
      obtain ⟨hd, _⟩ := hdd
      subst hg
      exact ⟨hd, c, hc, rfl, rfl, rfl⟩

/-- Witness for the amended claim C2: the fetched rows do not depend on the
order of the requested ids. -/
theorem claim2_amended_witness : fetchById demoRows [2, 1] = fetchById demoRows [1, 2] :=
  (claim2_amended demoRows [2, 1] [1, 2] (by intro x; simp [or_comm])).1

/-- Counterexample to claim C2 as stated: with rows 1 and 2 in the store and
the index returning doc ids `[2, 1]` (distance order), `fetch_by_id`
returns `[row1, row2]` — not the input order — and the hydration loop
therefore pairs doc id 2 with the file name of row 1 and doc id 1 with the
file name of row 2. -/
theorem claim2_counterexample :
    fetchById demoRows [2, 1] ≠ [demoRow2, demoRow1] ∧
    (hydrate demoRows true [2, 1] [0, 4]).map (fun r => (r.id, r.file_name)) =
      [(2, "a.txt"), (1, "b.txt")] := by
  constructor
  · decide
  · decide

/-! ### Processor lemmas (claims C4, C5, C6) -/

theorem insertLoop_fields {V : Type} (embed : List Char → V) (f : FileDesc) :
    ∀ (chunks : List (List Char)) (s : ProcessorState V) (ci id n : Nat) (fa : Option Nat),
      (insertLoop embed s f chunks ci id n fa).2.mode = s.mode ∧
      (insertLoop embed s f chunks ci id n fa).2.mode_switched = s.mode_switched ∧
      (insertLoop embed s f chunks ci id n fa).2.oom_protection = s.oom_protection ∧
      (insertLoop embed s f chunks ci id n fa).2.chunker = s.chunker := by
  intro chunks
  induction chunks with
  | nil =>
    intro s ci id n fa
    simp [insertLoop]
  | cons c rest ih =>
    intro s ci id n fa
    simp only [insertLoop]
    split
    · exact ih s ci id n fa
    · split
      · simp
      · cases hadd : faissAdd s.faiss [embed c] [id] with
        | none => simp
        | some pr =>
          obtain ⟨b, fs2⟩ := pr
          simpa using ih { s with faiss := fs2, rows := s.rows ++ [⟨id, f.hash, f.path,
            f.name, fileTypeOf f, f.size, c, ci, -1⟩] } (ci + 1) (id + 1) (n + 1) fa

theorem processChunksOnce_fields {V : Type} (embed : List Char → V) (s : ProcessorState V)
    (f : FileDesc) (text : List Char) (fa : Option Nat) :
    (processChunksOnce embed s f text fa).2.mode = s.mode ∧
    (processChunksOnce embed s f text fa).2.mode_switched = s.mode_switched ∧
    (processChunksOnce embed s f text fa).2.oom_protection = s.oom_protection ∧
    (processChunksOnce embed s f text fa).2.chunker = s.chunker := by
  unfold processChunksOnce
  have hf := insertLoop_fields embed f (chunkStreaming s.chunker text) s 0
    (getMaxId s.rows + 1) 0 fa
  cases hl : insertLoop embed s f (chunkStreaming s.chunker text) 0 (getMaxId s.rows + 1)
      0 fa with
  | mk r s2 =>
    rw [hl] at hf
    cases r with
    | ok n =>
      simp only [hl]
      split
      · simpa using hf
      · simpa using hf
    | error e =>
      simp only [hl]
      simpa using hf

/-! ### Claim C6 -/

/-- Claim C6, confirmed: when the file's content hash is already present in
the metadata store, `index_file` returns success with zero chunks inserted
and the duplicate message, and the processor state — metadata rows and
vector index included — is unchanged. -/
theorem claim6_duplicate {V : Type} (embed : List Char → V) (s : ProcessorState V)
    (f : FileDesc) (failAfter : Option Nat) (hex : f.fsExists = true)
    (hdup : checkHashExists s.rows f.hash = true) :
    indexFile embed s f failAfter =
      ({ success := true, chunks_inserted := 0, mode := s.mode,
         message := "File already indexed (duplicate)" }, s) := by
  unfold indexFile
  rw [hex, hdup]
  simp

/-- Witness for claim C6: re-indexing the already-stored hash 11. -/
theorem claim6_duplicate_witness :
    indexFile embed0 demoProcState demoFile none =
      ({ success := true, chunks_inserted := 0, mode := "balanced",
         message := "File already indexed (duplicate)" }, demoProcState) :=
  claim6_duplicate embed0 demoProcState demoFile none rfl (by decide)

/-! ### Claim C4 -/

/-- Claim C4, corrected.  The original claim says `index_file` returns a
*success* result with zero chunks for an existing file whose extracted text
is empty or whitespace-only, but the code returns `success=False` with the
message "No text content extracted".  Amended statement: for every existing,
non-duplicate file whose extracted text strips to empty, `index_file`
returns a *failure* result with zero chunks inserted, message
"No text content extracted", and the state unchanged. -/
theorem claim4_amended {V : Type} (embed : List Char → V) (s : ProcessorState V)
    (f : FileDesc) (failAfter : Option Nat) (hex : f.fsExists = true)
    (hdup : checkHashExists s.rows f.hash = false)
    (hempty : (pyStrip (extractText f)).isEmpty = true) :
    indexFile embed s f failAfter =
      ({ success := false, chunks_inserted := 0, mode := s.mode,
         message := "No text content extracted" }, s) := by
  unfold indexFile
  rw [hex, hdup]
  simp [hempty]

/-- Witness for the amended claim C4 on a whitespace-only text file. -/
theorem claim4_amended_witness :
    indexFile embed0 demoProcState emptyFile none =
      ({ success := false, chunks_inserted := 0, mode := "balanced",
         message := "No text content extracted" }, demoProcState) :=
  claim4_amended embed0 demoProcState emptyFile none rfl (by decide) (by decide)

/-- Counterexample to claim C4 as stated: on an existing `.txt` file whose
content is two spaces, `index_file` does not return success. -/
theorem claim4_counterexample :
    ¬((indexFile embed0 demoProcState emptyFile none).1.success = true) := by
  decide

/-! ### Claim C5 -/

/-- Claim C5, corrected.  The original claim says the post-downgrade retry
processes exactly the unprocessed remainder of the current text; the code
instead retries with `text[len(text) // 2:]` — the second half of the text —
regardless of how much was already processed.  Amended statement: on a
MemoryError with OOM protection enabled and no prior downgrade, the
processor switches to eco settings (one-shot flag set, eco chunker) and
retries with the second half of the text when that half is not
whitespace-only, re-raising otherwise; and once `mode_switched` is set, a
later MemoryError is re-raised without any further downgrade. -/
theorem claim5_amended {V : Type} (embed : List Char → V) (s : ProcessorState V)
    (f : FileDesc) (text : List Char) (n : Nat) (hprot : s.oom_protection = true)
    (hsw : s.mode_switched = false)
    (hfail : (processChunksOnce embed s f text (some n)).1 = .error .memoryError) :
    (processChunksStreaming embed s f text (some n) =
      (if (pyStrip (text.drop (text.length / 2))).isEmpty then
        (.error .memoryError, switchToEco (processChunksOnce embed s f text (some n)).2)
      else
        processChunksOnce embed (switchToEco (processChunksOnce embed s f text (some n)).2)
          f (text.drop (text.length / 2)) none) ∧
      (switchToEco (processChunksOnce embed s f text (some n)).2).mode_switched = true ∧
      (switchToEco (processChunksOnce embed s f text (some n)).2).mode = "eco" ∧
      (switchToEco (processChunksOnce embed s f text (some n)).2).chunker =
        createChunkerForMode "eco") ∧
    (∀ (s4 : ProcessorState V) (t : List Char) (fa : Option Nat),
      s4.mode_switched = true →
      (processChunksOnce embed s4 f t fa).1 = .error .memoryError →
      processChunksStreaming embed s4 f t fa =
        (.error .memoryError, (processChunksOnce embed s4 f t fa).2)) := by
  constructor
  · have hfields := processChunksOnce_fields embed s f text (some n)
    cases hpc : processChunksOnce embed s f text (some n) with
    | mk r s2 =>
      rw [hpc] at hfail hfields
      subst hfail
      refine ⟨?_, ?_, ?_, ?_⟩
      · unfold processChunksStreaming
        have hcond : (s2.oom_protection && !s2.mode_switched) = true := by
          rw [hfields.2.2.1, hfields.2.1, hprot, hsw]
          rfl
        simp only [hpc, hcond, if_true]
      · simp [switchToEco]
      · simp [switchToEco]
      · simp [switchToEco]
  · intro s4 t fa hsw4 hfail4
    cases hpc4 : processChunksOnce embed s4 f t fa with
    | mk r s5 =>
      rw [hpc4] at hfail4
      subst hfail4
      have hfields4 := processChunksOnce_fields embed s4 f t fa
      rw [hpc4] at hfields4
      unfold processChunksStreaming
      have hcond : (s5.oom_protection && !s5.mode_switched) = false := by
        rw [hfields4.2.1, hsw4]
        simp
      simp only [hpc4, hcond, Bool.false_eq_true, if_false]

/-- Witness for the amended claim C5: the concrete OOM run sets the one-shot
downgrade flag. -/
theorem claim5_amended_witness :
    (switchToEco (processChunksOnce embed0 procState0 oomFile cexProcText
      (some 0)).2).mode_switched = true :=
  (claim5_amended embed0 procState0 oomFile cexProcText 0 rfl rfl (by decide)).1.2.1

/-- Counterexample to claim C5 as stated: a MemoryError before any chunk of
`"alpha beta gamma del"` was inserted leaves the whole text unprocessed, yet
the retry inserts only the chunk `"gamma del"` — the stripped second half —
while retrying with the full unprocessed remainder would have inserted the
whole text as one chunk. -/
theorem claim5_counterexample :
    ((processChunksStreaming embed0 procState0 oomFile cexProcText (some 0)).2.rows.map
      (fun r => r.text)) = ["gamma del".toList] ∧
    "gamma del".toList ≠ pyStrip cexProcText ∧
    ((processChunksOnce embed0 (switchToEco procState0) oomFile cexProcText none).2.rows.map
      (fun r => r.text)) = [pyStrip cexProcText] := by
  refine ⟨?_, ?_, ?_⟩
  · decide
  · decide
  · decide

/-! ### Claim C8 -/

/-- Claim C8, confirmed: for a valid mode `m`, `switch_mode(m)` when the
pipeline is already in mode `m` is a no-op returning success with the
"Already in m mode" message and `index_converted = false`; consequently two
consecutive `switch_mode(m)` calls produce exactly this no-op on the second
call, whatever the starting mode. -/
theorem claim8_switch_mode_idempotent (s : PipelineState) (m : String)
    (hm : m ∈ validModes) :
    (s.current_mode = m →
      switchMode s m =
        ({ success := true, previous_mode := m, new_mode := m,
           message := "Already in " ++ m ++ " mode", index_converted := false }, s)) ∧
    (switchMode (switchMode s m).2 m).1 =
      { success := true, previous_mode := m, new_mode := m,
        message := "Already in " ++ m ++ " mode", index_converted := false } ∧
    (switchMode (switchMode s m).2 m).2 = (switchMode s m).2 := by
  have hm2 := hm
  simp only [validModes, List.mem_cons, List.not_mem_nil, or_false] at hm2
  have hlow : pyLower m = m := by
    rcases hm2 with rfl | rfl | rfl <;> decide
  have hcont : validModes.contains m = true := by
    rcases hm2 with rfl | rfl | rfl <;> decide
  constructor
  · intro hc
    simp [switchMode, hlow, hcont, hm, hc]
  · by_cases hc : m = s.current_mode
    · constructor
      · simp [switchMode, hlow, hcont, hm, hc.symm]
      · simp [switchMode, hlow, hcont, hm, hc.symm]
    · constructor
      · simp [switchMode, hlow, hcont, hm, hc]
      · simp [switchMode, hlow, hcont, hm, hc]

/-- Witness for claim C8: switching from eco to balanced, then asking for
balanced again, reports the no-op. -/
theorem claim8_switch_mode_idempotent_witness :
    (switchMode (switchMode ⟨"eco", false, false⟩ "balanced").2 "balanced").1 =
      { success := true, previous_mode := "balanced", new_mode := "balanced",
        message := "Already in " ++ "balanced" ++ " mode", index_converted := false } :=
  (claim8_switch_mode_idempotent ⟨"eco", false, false⟩ "balanced" (by decide)).2.1

end FileSense
